import Mathlib

/-!
Verification development for the ossapi deserialization engine
(`ossapi/ossapiv2.py`).  The Python source is shallowly embedded: JSON
values and instantiated model objects become the inductive `Value`,
declared type annotations become `Ty`, and the coercion engine
(`_instantiate_type`, `_instantiate`, `_resolve_annotations` and the
union-resolution loop inside `_instantiate_type`) becomes a family of
fueled, executable Lean functions.  Python dictionaries are embedded as
association lists with dict-like update semantics.  Helper predicates that
live in `ossapi/utils.py` (not part of the sources at hand) are modelled
from the specification and marked as such in their doc comments.
-/

namespace OssapiModel

/-- Primitive kinds from the declared-type universe.  The source treats
`str`, `int`, `bool` and `datetime` as primitive types
(`is_primitive_type` in `ossapi/utils.py`); floats never occur in the
claims and are omitted. -/
inductive PrimKind where
  | pint
  | pstr
  | pbool
  | pdatetime
deriving DecidableEq, Repr

/-- Base-model kinds: enum-like types constructible from a single scalar
(spec section 4.1).  A single representative enum is enough for the
claims; `gameMode` stands for `ossapi.enums.GameMode`. -/
inductive BaseKind where
  | gameMode
deriving DecidableEq, Repr

/-- Declared type annotations, as classified by the engine via
`get_origin` / `get_args`.  `noneT` is `type(None)`, so
`Optional[T]` is `Ty.union [T, Ty.noneT]`, matching Python typing. -/
inductive Ty where
  | prim (k : PrimKind)
  | base (b : BaseKind)
  | list (t : Ty)
  | union (args : List Ty)
  | noneT
  | model (name : String)

/-- Runtime values: raw JSON values, plus the shapes the engine creates
(`vmodel` for instantiated model objects holding `_ossapi_data`,
`venum` for constructed base-model instances, `vdatetime` for converted
timestamps, `apiRef` for the `_api` back-reference to the client). -/
inductive Value where
  | null
  | vbool (b : Bool)
  | vint (n : Int)
  | vstr (s : String)
  | vdatetime (epoch : Int)
  | vlist (xs : List Value)
  | vmap (fields : List (String × Value))
  | vmodel (name : String) (data : List (String × Value))
  | venum (name : String) (scalar : Value)
  | apiRef

/-- Python `value is None`. -/
def isNull : Value → Bool
  | .null => true
  | _ => false

/-! ## Association lists with Python-dict semantics -/

/-- First-occurrence lookup, like `dict.__getitem__` on well-formed
(duplicate-free) maps. -/
def lookupKey {α : Type} (k : String) : List (String × α) → Option α
  | [] => none
  | (k₁, v) :: rest => if k₁ = k then some v else lookupKey k rest

/-- Python `k in dict`. -/
def containsKey {α : Type} (k : String) : List (String × α) → Bool
  | [] => false
  | (k₁, _) :: rest => k₁ = k || containsKey k rest

/-- Remove the first entry with the given key (`dict.pop`, removal
part). -/
def eraseKey {α : Type} (k : String) : List (String × α) → List (String × α)
  | [] => []
  | (k₁, v) :: rest => if k₁ = k then rest else (k₁, v) :: eraseKey k rest

/-- Python `dict[k] = v`: overwrite in place if the key exists, else
append at the end (dicts preserve insertion order). -/
def setKey {α : Type} (k : String) (v : α) (m : List (String × α)) :
    List (String × α) :=
  if containsKey k m then
    m.map (fun p => if p.1 = k then (k, v) else p)
  else
    m ++ [(k, v)]

def keysOf {α : Type} (m : List (String × α)) : List String := m.map Prod.fst

/-! ## Textual rendering used inside embedded error messages

These render the pieces interpolated into the Python f-strings of the
source.  Container values are rendered shallowly; the claims only rely
on the scalar renderings and on string containment. -/

def primPyName : PrimKind → String
  | .pint => "int"
  | .pstr => "str"
  | .pbool => "bool"
  | .pdatetime => "datetime"

def valueTypeName : Value → String
  | .null => "NoneType"
  | .vbool _ => "bool"
  | .vint _ => "int"
  | .vstr _ => "str"
  | .vdatetime _ => "datetime"
  | .vlist _ => "list"
  | .vmap _ => "dict"
  | .vmodel n _ => n
  | .venum n _ => n
  | .apiRef => "Ossapi"

def pyRepr : Value → String
  | .null => "None"
  | .vbool b => if b then "True" else "False"
  | .vint n => toString n
  | .vstr s => s
  | .vdatetime n => toString n
  | .vlist _ => "<list>"
  | .vmap _ => "<dict>"
  | .vmodel n _ => "<" ++ n ++ ">"
  | .venum n _ => "<" ++ n ++ ">"
  | .apiRef => "<Ossapi>"

def tyRepr : Ty → String
  | .prim k => primPyName k
  | .base _ => "GameMode"
  | .list _ => "list[...]"
  | .union _ => "Union[...]"
  | .noneT => "NoneType"
  | .model n => n

def tyListRepr (ts : List Ty) : String :=
  "(" ++ String.intercalate ", " (ts.map tyRepr) ++ ")"

/-- Rendering of the accumulated `fail_reasons` list interpolated into
the union-failure message (Python renders a `list` of strings; quoting
of the items is elided). -/
def reasonsItems : List String → String
  | [] => ""
  | [r] => r
  | r :: rs => r ++ ", " ++ reasonsItems rs

def reasonsRepr (rs : List String) : String :=
  "[" ++ reasonsItems rs ++ "]"

def attrRepr : Option String → String
  | none => "None"
  | some a => a

/-! ## Type classifiers

Modelled from the spec: the classification helpers live in
`ossapi/utils.py`, which is outside the sources at hand.  Spec section
4.1 gives the classification contract: primitives are
string/int/float/bool/datetime-like; a base model is a type
constructible from a single scalar; an optional is a union containing
the absence marker; a record is a named type with declared fields;
`is_model_type` covers base models and records, `is_high_model_type`
only records. -/

def isNoneTy : Ty → Bool
  | .noneT => true
  | _ => false

/-- Modelled from the spec: `ossapi.utils.is_optional` — a union whose
arguments contain `type(None)`. -/
def is_optional : Ty → Bool
  | .union args => args.any isNoneTy
  | _ => false

/-- Modelled from the spec: `ossapi.utils.is_primitive_type`. -/
def is_primitive_type : Ty → Bool
  | .prim _ => true
  | _ => false

/-- Modelled from the spec: `ossapi.utils.is_base_model_type`. -/
def is_base_model_type : Ty → Bool
  | .base _ => true
  | _ => false

/-- Modelled from the spec: `ossapi.utils.is_high_model_type` — a
structured record type (a dataclass-like model). -/
def is_high_model_type : Ty → Bool
  | .model _ => true
  | _ => false

/-- Modelled from the spec: `ossapi.utils.is_model_type` — base models
or structured records. -/
def is_model_type (t : Ty) : Bool :=
  is_base_model_type t || is_high_model_type t

/-- Modelled from the spec: `ossapi.utils.convert_primitive_type`
attempts a declared conversion (e.g. numeric epoch to a timestamp
type) and otherwise leaves the value untouched; a null value passes
through. -/
def convert_primitive_type (v : Value) (k : PrimKind) : Value :=
  match k, v with
  | .pdatetime, .vint n => .vdatetime n
  | _, _ => v

/-- Python `isinstance(value, type_)` for the primitive kinds.  Note
that Python `bool` is a subclass of `int`, so booleans are instances of
`int`. -/
def primInstance (k : PrimKind) (v : Value) : Bool :=
  match k, v with
  | .pint, .vint _ => true
  | .pint, .vbool _ => true
  | .pstr, .vstr _ => true
  | .pbool, .vbool _ => true
  | .pdatetime, .vdatetime _ => true
  | _, _ => false

/-- Modelled from the spec: constructing a base model by passing the
raw scalar to the constructor (`type_(value)`); an invalid scalar is a
ValueError naming it.  `gameMode` accepts the four GameMode values. -/
def baseConstruct (b : BaseKind) (v : Value) : Except String Value :=
  match b, v with
  | .gameMode, .vstr s =>
      if s = "osu" ∨ s = "taiko" ∨ s = "fruits" ∨ s = "mania" then
        .ok (.venum "GameMode" (.vstr s))
      else
        .error (s!"{s} is not a valid GameMode")
  | .gameMode, v => .error (s!"{pyRepr v} is not a valid GameMode")

/-! ## Deep copy

Embedding of `copy.deepcopy` as used by the union resolver: a
structural copy of the whole value tree. -/

mutual

def deepCopy : Value → Value
  | .null => .null
  | .vbool b => .vbool b
  | .vint n => .vint n
  | .vstr s => .vstr s
  | .vdatetime n => .vdatetime n
  | .vlist xs => .vlist (deepCopyList xs)
  | .vmap fs => .vmap (deepCopyFields fs)
  | .vmodel n fs => .vmodel n (deepCopyFields fs)
  | .venum n s => .venum n (deepCopy s)
  | .apiRef => .apiRef

def deepCopyList : List Value → List Value
  | [] => []
  | v :: vs => deepCopy v :: deepCopyList vs

def deepCopyFields : List (String × Value) → List (String × Value)
  | [] => []
  | (k, v) :: fs => (k, deepCopy v) :: deepCopyFields fs

end

mutual

theorem deepCopy_eq : ∀ v : Value, deepCopy v = v
  | .null => rfl
  | .vbool _ => rfl
  | .vint _ => rfl
  | .vstr _ => rfl
  | .vdatetime _ => rfl
  | .vlist xs => by rw [deepCopy, deepCopyList_eq]
  | .vmap fs => by rw [deepCopy, deepCopyFields_eq]
  | .vmodel n fs => by rw [deepCopy, deepCopyFields_eq]
  | .venum n s => by rw [deepCopy, deepCopy_eq]
  | .apiRef => rfl

theorem deepCopyList_eq : ∀ xs : List Value, deepCopyList xs = xs
  | [] => rfl
  | v :: vs => by rw [deepCopyList, deepCopy_eq, deepCopyList_eq]

theorem deepCopyFields_eq : ∀ fs : List (String × Value),
    deepCopyFields fs = fs
  | [] => rfl
  | (k, v) :: fs => by rw [deepCopyFields, deepCopy_eq, deepCopyFields_eq]

end

/-! ## Record schemas

A `ModelSchema` is the declaration surface of one record type: its
resolved type hints (attribute name to declared annotation, inherited
attributes included) and the wire-name overrides collected from
`Field(name=...)` declarations (the `field_names` mapping of
`_processed_type_hints`).  The per-type hooks `preprocess_data` and
`override_attributes` are modelled from the spec at their defaults
(identity preprocessing, empty override), as the claims only concern
hook-free record types. -/

structure ModelSchema where
  name : String
  fields : List (String × Ty)
  renames : List (String × String)

/-- The environment resolving model names, standing for the Python
class objects themselves. -/
abbrev SchemaEnv := List (String × ModelSchema)

/-- One step of the wire-name renaming loop in `_processed_type_hints`
(`use_field_names=True`): pop the key, rename it through `field_names`
if applicable, reinsert the value under the new name. -/
def renameStep (field_names : List (String × String))
    (m : List (String × Value)) (key : String) : List (String × Value) :=
  match lookupKey key m with
  | none => m
  | some v =>
      let m' := eraseKey key m
      let key' := match lookupKey key field_names with
        | some k => k
        | none => key
      setKey key' v m'

/-- The full renaming pass: iterate over a snapshot of the keys
(`for name in list(kwargs)`), popping and reinserting each. -/
def renameFields (field_names : List (String × String))
    (m : List (String × Value)) : List (String × Value) :=
  (keysOf m).foldl (renameStep field_names) m

/-- The optional-fill loop of `_instantiate`: for every attribute whose
annotation is optional and which is absent from the raw mapping, insert
an explicit `None`. -/
def fillOptionals (type_hints : List (String × Ty))
    (m : List (String × Value)) : List (String × Value) :=
  type_hints.foldl
    (fun acc p =>
      if is_optional p.2 && !containsKey p.1 acc then
        acc ++ [(p.1, Value.null)]
      else acc)
    m

/-- The strict-mode error message for an unexpected wire key, from
`_instantiate`. -/
def unexpectedParamMsg (k : String) (v : Value) (typeName : String) :
    String :=
  "unexpected parameter `" ++ k ++ "` for type " ++ typeName ++
    ". value: " ++ pyRepr v

/-- The unknown-key partition loop of `_instantiate`: keep declared
keys, raise on unknown keys in strict mode, drop them silently in
lenient mode. -/
def filterKnown (strict : Bool) (type_hints : List (String × Ty))
    (typeName : String) :
    List (String × Value) → Except String (List (String × Value))
  | [] => .ok []
  | (k, v) :: rest =>
      if containsKey k type_hints then
        match filterKnown strict type_hints typeName rest with
        | .ok tail => .ok ((k, v) :: tail)
        | .error e => .error e
      else if strict then
        .error (unexpectedParamMsg k v typeName)
      else
        filterKnown strict type_hints typeName rest

def missingFieldMsg (typeName attr : String) : String :=
  s!"type error while instantiating class {typeName}: missing required argument {attr}"

/-- The final constructor call `type_(**kwargs_)` of `_instantiate`:
our models are dataclass-like, so construction fails (a `TypeError`,
wrapped by `_instantiate` with the class name) when a declared
attribute is missing from the keyword arguments. -/
def constructModel (typeName : String) (type_hints : List (String × Ty))
    (kwargs : List (String × Value)) : Except String Value :=
  match type_hints.find? (fun p => !containsKey p.1 kwargs) with
  | some p => .error (missingFieldMsg typeName p.1)
  | none => .ok (.vmodel typeName kwargs)

def notMappingMsg (typeName : String) (v : Value) : String :=
  s!"type error while instantiating class {typeName}: {valueTypeName v} object is not a mapping"

/-- Embedding of `Ossapi._instantiate`: rename wire keys to attribute
names, fill absent optional attributes with `None`, partition keys into
known and unknown (raising in strict mode), attach the `_api`
back-reference and construct the record.  A non-mapping input fails as
it does in Python when the raw value cannot be used as keyword
arguments. -/
def instantiate (strict : Bool) (schema : ModelSchema) (value : Value) :
    Except String Value :=
  match value with
  | .vmap kwargs =>
      let kwargs₁ := renameFields schema.renames kwargs
      let kwargs₂ := fillOptionals schema.fields kwargs₁
      match filterKnown strict schema.fields schema.name kwargs₂ with
      | .error e => .error e
      | .ok kept =>
          constructModel schema.name schema.fields
            (kept ++ [("_api", Value.apiRef)])
  | v => .error (notMappingMsg schema.name v)

/-! ## The coercion engine

`_instantiate_type`, its union-resolution loop, its list handling and
`_resolve_annotations` are mutually recursive through the nesting of
the value, so the embedding threads a fuel parameter: fuel is consumed
when descending into a constructed model or when hopping between the
mutually recursive functions, and running out of fuel is reported as
Python would report exhausting the interpreter recursion limit.  All
claims are stated either for arbitrary fuel or at a concrete fuel large
enough for the inputs at hand. -/

/-- The message of the buggy `TypeError` raised by
`_check_primitive_type` inside `_instantiate_type`.  In the source the
trailing conditional

`f"expected type ..." f"..." f" (for attribute: {attr_name})" if attr_name else ""`

binds the whole concatenated f-string, not just the attribute suffix,
so when `attr_name` is falsy the entire message collapses to the empty
string. -/
def primMismatchMsg (k : PrimKind) (v : Value) (attrName : Option String) :
    String :=
  let truthy := match attrName with
    | none => false
    | some a => !(a = "")
  if truthy then
    "expected type " ++ primPyName k ++ " for value " ++ pyRepr v ++
      ", got type " ++ valueTypeName v ++ " (for attribute: " ++
      attrRepr attrName ++ ")"
  else ""

/-- The aggregated failure raised when the union loop ends with
`new_value` still `None`. -/
def unionFailMsg (args : List Ty) (attrName : Option String)
    (fail_reasons : List String) : String :=
  "Failed to satisfy union: no type in " ++ tyListRepr args ++
    " satisfied " ++ attrRepr attrName ++
    " (fail reasons: " ++ reasonsRepr fail_reasons ++ ")"

/-- The non-`None` members of a union, as computed by the
optional-unwrap path for unions of three or more arguments. -/
def filterNonNone : List Ty → List Ty
  | [] => []
  | t :: ts => if isNoneTy t then filterNonNone ts else t :: filterNonNone ts

mutual

/-- Embedding of `Ossapi._instantiate_type`.  Branches in source
order: unwrap an optional annotation (taking the first argument for the
standard two-argument `Optional[T]`, otherwise dropping `None` from the
union), then dispatch on primitive, base model, list-of-model, union,
and model types; anything else returns `None` (`Value.null`). -/
def instantiate_type (fuel : Nat) (strict : Bool) (env : SchemaEnv)
    (ty : Ty) (value : Value) (attrName : Option String) :
    Except String Value :=
  match fuel with
  | 0 => .error "maximum recursion depth exceeded"
  | f + 1 =>
    match ty with
    | .prim k =>
        let v := convert_primitive_type value k
        if !strict && isNull v then .ok v
        else if primInstance k v then .ok v
        else .error (primMismatchMsg k v attrName)
    | .base b => baseConstruct b value
    | .list t =>
        if is_model_type t then
          match value with
          | .vlist entries =>
              match instantiateListEntries f strict env t entries with
              | .ok xs => .ok (.vlist xs)
              | .error e => .error e
          | v => .error s!"{valueTypeName v} object is not iterable"
        else
          .ok .null
    | .union args =>
        if args.any isNoneTy then
          if args.length = 2 then
            instantiate_type f strict env (args.headD .noneT) value attrName
          else
            unionLoop f strict env (filterNonNone args) (filterNonNone args)
              value attrName []
        else
          unionLoop f strict env args args value attrName []
    | .noneT => .ok .null
    | .model name =>
        match lookupKey name env with
        | none => .error s!"unknown model type {name}"
        | some schema =>
            match instantiate strict schema value with
            | .error e => .error e
            | .ok inst => resolve_annotations f strict env inst
  termination_by (fuel, 0)

/-- Embedding of the union-resolution loop inside `_instantiate_type`:
try each candidate on a deep copy of the value, record the failure
reason and continue on error, stop at the first non-raising candidate;
if the loop ends with `new_value` still `None` (no candidate succeeded,
or the first non-raising candidate produced `None`), raise the
aggregated failure. -/
def unionLoop (fuel : Nat) (strict : Bool) (env : SchemaEnv)
    (fullArgs remaining : List Ty) (value : Value)
    (attrName : Option String) (fail_reasons : List String) :
    Except String Value :=
  match remaining with
  | [] => .error (unionFailMsg fullArgs attrName fail_reasons)
  | arg :: rest =>
      match instantiate_type fuel strict env arg (deepCopy value) attrName with
      | .error e =>
          unionLoop fuel strict env fullArgs rest value attrName
            (fail_reasons ++ [e])
      | .ok v =>
          if isNull v then .error (unionFailMsg fullArgs attrName fail_reasons)
          else .ok v
  termination_by (fuel, remaining.length)

/-- Embedding of the list branch of `_instantiate_type`: every entry is
constructed directly for a base model type, or instantiated and then
annotation-resolved for a structured model type. -/
def instantiateListEntries (fuel : Nat) (strict : Bool) (env : SchemaEnv)
    (t : Ty) (entries : List Value) : Except String (List Value) :=
  match entries with
  | [] => .ok []
  | entry :: rest =>
      match t with
      | .base b =>
          match baseConstruct b entry with
          | .error e => .error e
          | .ok v =>
              match instantiateListEntries fuel strict env t rest with
              | .ok xs => .ok (v :: xs)
              | .error e => .error e
      | .model n =>
          match fuel with
          | 0 => .error "maximum recursion depth exceeded"
          | f + 1 =>
              match lookupKey n env with
              | none => .error s!"unknown model type {n}"
              | some schema =>
                  match instantiate strict schema entry with
                  | .error e => .error e
                  | .ok inst =>
                      match resolve_annotations f strict env inst with
                      | .error e => .error e
                      | .ok v =>
                          match instantiateListEntries (f + 1) strict env t rest with
                          | .ok xs => .ok (v :: xs)
                          | .error e => .error e
      | _ => .error "not a model type"
  termination_by (fuel, entries.length)

/-- Embedding of `Ossapi._resolve_annotations`: walk the instantiated
the `_ossapi_data` of the object and coerce every attribute through
`_instantiate_type`. -/
def resolve_annotations (fuel : Nat) (strict : Bool) (env : SchemaEnv)
    (value : Value) : Except String Value :=
  match value with
  | .vmodel name data =>
      match lookupKey name env with
      | none => .error s!"unknown model type {name}"
      | some schema =>
          match fuel with
          | 0 => .error "maximum recursion depth exceeded"
          | f + 1 =>
              match resolveFields f strict env schema.fields data with
              | .error e => .error e
              | .ok d => .ok (.vmodel name d)
  | v => .ok v
  termination_by (fuel, 0)

/-- Embedding of the attribute loop of `_resolve_annotations`: skip the
`_api` back-reference, skip `None` values of optional annotations,
otherwise coerce the value; a coercion that returns `None` leaves the
stored value unchanged. -/
def resolveFields (fuel : Nat) (strict : Bool) (env : SchemaEnv)
    (type_hints : List (String × Ty)) (data : List (String × Value)) :
    Except String (List (String × Value)) :=
  match data with
  | [] => .ok []
  | (attr, v) :: rest =>
      if attr = "_api" then
        match resolveFields fuel strict env type_hints rest with
        | .ok tail => .ok ((attr, v) :: tail)
        | .error e => .error e
      else
        match lookupKey attr type_hints with
        | none => .error s!"KeyError: {attr}"
        | some ty =>
            if isNull v && is_optional ty then
              match resolveFields fuel strict env type_hints rest with
              | .ok tail => .ok ((attr, v) :: tail)
              | .error e => .error e
            else
              match fuel with
              | 0 => .error "maximum recursion depth exceeded"
              | f + 1 =>
                  match instantiate_type f strict env ty v (some attr) with
                  | .error e => .error e
                  | .ok v₂ =>
                      let kept := if isNull v₂ then v else v₂
                      match resolveFields (f + 1) strict env type_hints rest with
                      | .ok tail => .ok ((attr, kept) :: tail)
                      | .error e => .error e
  termination_by (fuel, data.length)

end

/-! ## Request-parameter formatting (`Ossapi._format_value`) -/

/-- Values that reach `_format_value` through `_format_params`. -/
inductive ParamValue where
  | pdatetime (epochSeconds : Int)
  | penum (enumValue : String)
  | pbool (b : Bool)
  | pint (n : Int)
  | pstr (s : String)
deriving DecidableEq, Repr

/-- The condition `bool is True` appearing in `_format_value`.  It
compares the built-in class `bool` itself against the singleton `True`,
two distinct objects, so it is identically false; the parameter value
`value` is never consulted. -/
def boolClassIsTrue : Bool := false

/-- Embedding of `Ossapi._format_value`: datetimes become millisecond
epochs, enums their underlying value, booleans the string produced by
`"true" if bool is True else "false"`, everything else passes
through. -/
def format_value : ParamValue → ParamValue
  | .pdatetime ts => .pint (1000 * ts)
  | .penum v => .pstr v
  | .pbool _ => if boolClassIsTrue then .pstr "true" else .pstr "false"
  | v => v

/-! ## Identifier normalization (`id_from_id_type` and the `request`
wrapper argument pass) -/

/-- The id-or-object parameter annotations that `id_from_id_type`
recognizes (`BeatmapIdT = Union[int, BeatmapCompact]`,
`BeatmapsetIdT = Union[int, BeatmapCompact, BeatmapsetCompact]`,
`UserIdT`, `RoomIdT`, `MatchIdT`), plus any other annotation.  An
`Optional[...]` wrapper around one of these behaves identically under
`issubtype`, so it is represented by the same constructor. -/
inductive ParamAnn where
  | beatmapIdT
  | userIdT
  | beatmapsetIdT
  | roomIdT
  | matchIdT
  | other
deriving DecidableEq, Repr

/-- Argument values as passed by a caller: a plain integer id or one of
the rich model objects.  `beatmapCompact` carries its own `id` and its
optional parent `beatmapset_id`. -/
inductive ArgVal where
  | intv (n : Int)
  | beatmapCompact (id : Int) (beatmapset_id : Option Int)
  | beatmapsetCompact (id : Int)
  | userCompact (id : Int)
  | room (id : Int)
  | matchv (id : Int)
deriving DecidableEq, Repr

/-- `issubtype(BeatmapsetIdT, arg_type)`: the candidate union is a
subtype only of the beatmapset annotation, since only that union
mentions `BeatmapsetCompact`. -/
def subBeatmapsetIdT : ParamAnn → Bool
  | .beatmapsetIdT => true
  | _ => false

/-- `issubtype(BeatmapIdT, arg_type)`: `Union[int, BeatmapCompact]` is
contained in both the beatmap and the beatmapset annotations. -/
def subBeatmapIdT : ParamAnn → Bool
  | .beatmapIdT => true
  | .beatmapsetIdT => true
  | _ => false

def subUserIdT : ParamAnn → Bool
  | .userIdT => true
  | _ => false

def subRoomIdT : ParamAnn → Bool
  | .roomIdT => true
  | _ => false

def subMatchIdT : ParamAnn → Bool
  | .matchIdT => true
  | _ => false

/-- Embedding of `id_from_id_type` inside the `request` wrapper: walk
the `issubtype` chain in source order and extract the identifier
attribute appropriate for the parameter — a `BeatmapCompact` yields its
parent `beatmapset_id` for a beatmapset parameter but its own `id` for
a beatmap parameter.  Returns `none` where Python falls through and
returns `None`. -/
def id_from_id_type (ann : ParamAnn) (arg : ArgVal) : Option Int :=
  if subBeatmapsetIdT ann then
    match arg with
    | .beatmapCompact _ beatmapset_id => beatmapset_id
    | .beatmapsetCompact i => some i
    | _ => none
  else if subBeatmapIdT ann then
    match arg with
    | .beatmapCompact i _ => some i
    | _ => none
  else if subUserIdT ann then
    match arg with
    | .userCompact i => some i
    | _ => none
  else if subRoomIdT ann then
    match arg with
    | .room i => some i
    | _ => none
  else if subMatchIdT ann then
    match arg with
    | .matchv i => some i
    | _ => none
  else none

/-- Python truthiness of the extracted id as tested by `if id_:` in the
wrapper: `None` and `0` are falsy. -/
def pyTruthyId : Option Int → Bool
  | none => false
  | some n => !(n = 0)

/-- The argument substitution performed by the `request` wrapper for
one parameter: replace the argument with the extracted id when that id
is truthy, otherwise leave the argument untouched.  The substituted
argument is what the endpoint body, and hence the transport layer,
receives. -/
def processIdArg (ann : ParamAnn) (arg : ArgVal) : ArgVal :=
  let id_ := id_from_id_type ann arg
  if pyTruthyId id_ then
    match id_ with
    | some n => .intv n
    | none => arg
  else arg

/-! ## Authorization gate (the wrapper made by the `request` decorator) -/

/-- The OAuth scopes of `Scope`. -/
inductive OScope where
  | chat_write
  | chat_write_manage
  | chat_read
  | delegate
  | forum_write
  | friends_read
  | identify
  | public
deriving DecidableEq, Repr

/-- The grant types of `Grant`. -/
inductive OGrant where
  | client_credentials
  | authorization_code
deriving DecidableEq, Repr

def scopeName : OScope → String
  | .chat_write => "Scope.CHAT_WRITE"
  | .chat_write_manage => "Scope.CHAT_WRITE_MANAGE"
  | .chat_read => "Scope.CHAT_READ"
  | .delegate => "Scope.DELEGATE"
  | .forum_write => "Scope.FORUM_WRITE"
  | .friends_read => "Scope.FRIENDS_READ"
  | .identify => "Scope.IDENTIFY"
  | .public => "Scope.PUBLIC"

/-- The authorization state of a client: its grant and granted
scopes. -/
structure ClientAuth where
  grant : OGrant
  scopes : List OScope
deriving DecidableEq, Repr

/-- The constructor constraint of `Ossapi.__init__`: a client
credentials client must request exactly the public scope, or
construction raises a `ValueError`. -/
def validClientAuth (c : ClientAuth) : Prop :=
  c.grant = OGrant.client_credentials → c.scopes = [OScope.public]

/-- The client-side authorization failures raised by the wrapper before
the endpoint body runs. -/
inductive AuthError where
  | insufficientScope (msg : String)
  | accessDenied (msg : String)
deriving DecidableEq, Repr

/-- Observable effects of an endpoint body; the body of every endpoint
method performs its network request through `_request`. -/
inductive Event where
  | networkCall
deriving DecidableEq, Repr

def scopesRepr (scopes : List OScope) : String :=
  "[" ++ String.intercalate ", " (scopes.map scopeName) ++ "]"

def insufficientScopeMsg (scope : OScope) (c : ClientAuth) : String :=
  s!"A scope of {scopeName scope} is required for this endpoint. Your current scopes are {scopesRepr c.scopes}"

def accessDeniedMsg : String :=
  "To access this endpoint you must be authorized using the authorization code grant. You are currently authorized with the client credentials grant."

/-- Embedding of the `wrapper` closure produced by the `request`
decorator: check the required scope against the granted scopes, check
the grant against `requires_user`, and only then run the endpoint body.
The returned event list contains every event the call emitted, so an
authorization failure returning `[]` performed no network call. -/
def requestWrapper {α : Type} (scope : Option OScope) (requiresUser : Bool)
    (c : ClientAuth) (body : List Event × α) :
    List Event × Except AuthError α :=
  match scope with
  | some s =>
      if !(c.scopes.contains s) then
        ([], .error (.insufficientScope (insufficientScopeMsg s c)))
      else if requiresUser && c.grant = OGrant.client_credentials then
        ([], .error (.accessDenied accessDeniedMsg))
      else
        (body.1, .ok body.2)
  | none =>
      if requiresUser && c.grant = OGrant.client_credentials then
        ([], .error (.accessDenied accessDeniedMsg))
      else
        (body.1, .ok body.2)

/-- The endpoint catalogue entries relevant to authorization: every
endpoint decorated with `requires_user=True` in the source (`rooms`,
`download_score`, `download_score_mode`) declares `Scope.PUBLIC`, and a
sample of others.  Each entry is (method name, required scope,
requires_user). -/
def endpointCatalogue : List (String × Option OScope × Bool) :=
  [ ("rooms", some .public, true),
    ("download_score", some .public, true),
    ("download_score_mode", some .public, true),
    ("beatmap", some .public, false),
    ("send_pm", some .chat_write, false),
    ("friends", some .friends_read, false),
    ("get_me", some .identify, false),
    ("changelog_listing", none, false) ]

/-! ## The type-hints cache (`_get_type_hints` and
`_clear_type_hints_cache`) -/

/-- State of the per-client type-hints cache plus an instrumentation
counter recording how many times hints were actually computed
(`get_type_hints(obj)` evaluations). -/
structure HintsCacheState where
  cache : List (String × Unit)
  computeCount : Nat
deriving Repr

/-- Embedding of `Ossapi._get_type_hints`.  The cache lookup in the
source is commented out (`# if obj in self._type_hints_cache: ...`), so
every call recomputes the hints and stores them; the cache is written
but never consulted. -/
def get_type_hints (t : String) (s : HintsCacheState) : HintsCacheState :=
  { cache := setKey t () s.cache, computeCount := s.computeCount + 1 }

/-- Embedding of `Ossapi._clear_type_hints_cache`. -/
def clear_type_hints_cache (s : HintsCacheState) : HintsCacheState :=
  { cache := [], computeCount := s.computeCount }

/-- The cache behaviour of one top-level `_request`: the cache is
cleared first, then deserialization performs its sequence of type-hint
lookups. -/
def requestHintLookups (queries : List String) (s : HintsCacheState) :
    HintsCacheState :=
  queries.foldl (fun st t => get_type_hints t st) (clear_type_hints_cache s)

/-! ## A concrete schema environment used by witnesses -/

def nestedSchema : ModelSchema := ⟨"NestedType", [("id", .prim .pint)], []⟩

def recordSchema : ModelSchema :=
  ⟨"RecordType",
    [("id", .prim .pint), ("name", .prim .pstr),
     ("nested", .union [.model "NestedType", .noneT])],
    []⟩

def testEnv : SchemaEnv :=
  [("NestedType", nestedSchema), ("RecordType", recordSchema)]

/-- String containment, used to state that an error message carries a
given piece of information. -/
def strContains (needle hay : String) : Prop :=
  needle.data <:+: hay.data

/-! ## Claim theorems -/

/-- C10: request-parameter formatting maps every boolean value to the
string "false", for `True` as well as for `False`, because the
condition in `_format_value` is `bool is True` — it compares the
built-in class `bool` against the singleton `True` instead of testing
the parameter value. -/
theorem c10_format_value_bool (b : Bool) :
    format_value (.pbool b) = .pstr "false" := rfl

theorem hints_foldl_computeCount :
    ∀ (qs : List String) (st : HintsCacheState),
      (qs.foldl (fun s t => get_type_hints t s) st).computeCount =
        st.computeCount + qs.length
  | [], _ => by simp
  | q :: qs, st => by
      rw [List.foldl_cons, hints_foldl_computeCount qs]
      simp [get_type_hints]
      omega

theorem hints_foldl_cache_congr :
    ∀ (qs : List String) (s₁ s₂ : HintsCacheState), s₁.cache = s₂.cache →
      (qs.foldl (fun s t => get_type_hints t s) s₁).cache =
        (qs.foldl (fun s t => get_type_hints t s) s₂).cache
  | [], _, _, h => h
  | q :: qs, s₁, s₂, h => by
      rw [List.foldl_cons, List.foldl_cons]
      exact hints_foldl_cache_congr qs _ _ (by simp [get_type_hints, h])

/-- C9 (amended): the type-hints cache is reset in full at the start of
every top-level request — the cache contents after a request depend
only on the lookups of the request itself, never on previous state — but the
cache is never consulted: since the lookup in `_get_type_hints` is
commented out, every lookup recomputes the hints, so a type queried
twice within one request is computed twice rather than once. -/
theorem c9_cache_reset_but_never_read (queries : List String)
    (s s₂ : HintsCacheState) :
    (requestHintLookups queries s).computeCount =
      s.computeCount + queries.length ∧
    (requestHintLookups queries s).cache =
      (requestHintLookups queries s₂).cache := by
  exact ⟨hints_foldl_computeCount queries _,
    hints_foldl_cache_congr queries _ _ rfl⟩

/-- C9 counterexample: a top-level request that resolves type hints for
the same declared type twice computes them twice; under the claim
("computed once and served from the cache thereafter") the computation
count would be 1. -/
theorem c9_counterexample_recompute :
    (requestHintLookups ["User", "User"] ⟨[], 0⟩).computeCount = 2 ∧
      ¬ (requestHintLookups ["User", "User"] ⟨[], 0⟩).computeCount = 1 :=
  ⟨rfl, by decide⟩

/-- C8: for every endpoint in the catalogue and every validly
constructed client, a missing required scope raises
`InsufficientScopeError`, and an endpoint requiring an associated user
raises `AccessDeniedError` under the client-credentials grant; in both
cases the event trace is empty, i.e. the endpoint body and its network
call never ran.  The two cases never overlap because every
`requires_user` endpoint declares `Scope.PUBLIC` and client-credentials
clients are forced by the constructor to hold exactly that scope. -/
theorem c8_auth_checks_before_network {α : Type} (name : String)
    (scope? : Option OScope) (requiresUser : Bool)
    (hep : (name, scope?, requiresUser) ∈ endpointCatalogue)
    (c : ClientAuth) (hvalid : validClientAuth c) (body : List Event × α) :
    (∀ s, scope? = some s → c.scopes.contains s = false →
        requestWrapper scope? requiresUser c body =
          ([], .error (.insufficientScope (insufficientScopeMsg s c)))) ∧
    (requiresUser = true → c.grant = OGrant.client_credentials →
        requestWrapper scope? requiresUser c body =
          ([], .error (.accessDenied accessDeniedMsg))) := by
  constructor
  · intro s hs hcon
    subst hs
    simp only [requestWrapper, hcon]
    rfl
  · intro hru hgrant
    have hscopes : c.scopes = [OScope.public] := hvalid hgrant
    have hscope : scope? = some OScope.public := by
      fin_cases hep <;> simp_all
    subst hscope
    simp [requestWrapper, hscopes, hru, hgrant]

theorem c8_auth_checks_before_network_witness :
    requestWrapper (some OScope.public) true
        ⟨OGrant.client_credentials, [OScope.public]⟩ ([Event.networkCall], 0) =
      ([], .error (.accessDenied accessDeniedMsg)) :=
  (c8_auth_checks_before_network "download_score" (some OScope.public) true
    (by simp [endpointCatalogue])
    ⟨OGrant.client_credentials, [OScope.public]⟩ (fun _ => rfl)
    ([Event.networkCall], 0)).2 rfl rfl

/-- C6 (amended): when an endpoint parameter is declared as an
id-or-object union and the caller passes a rich object, the wrapper
substitutes the identifier chosen per the target parameter — a
beatmap-compact object contributes its own id for a beatmap-id
parameter but its parent beatmapset id for a beatmapset-id parameter —
provided that identifier is present and non-zero; an id of `0` or
`None` fails the `if id_:` truthiness test and the object is passed
through unchanged. -/
theorem c6_id_normalization (i si : Int) (bsid : Option Int)
    (hi : ¬ i = 0) (hsi : ¬ si = 0) :
    processIdArg .beatmapIdT (.beatmapCompact i bsid) = .intv i ∧
    processIdArg .beatmapsetIdT (.beatmapCompact i (some si)) = .intv si ∧
    processIdArg .beatmapsetIdT (.beatmapsetCompact si) = .intv si ∧
    processIdArg .userIdT (.userCompact i) = .intv i := by
  refine ⟨?_, ?_, ?_, ?_⟩ <;>
    simp [processIdArg, id_from_id_type, pyTruthyId, subBeatmapsetIdT,
      subBeatmapIdT, subUserIdT, hi, hsi]

theorem c6_id_normalization_witness :
    processIdArg .beatmapIdT (.beatmapCompact 221777 (some 53)) =
      .intv 221777 :=
  (c6_id_normalization 221777 53 (some 53) (by decide) (by decide)).1

/-- C6 counterexample: a beatmap-compact object whose id is `0` is not
normalized — the `if id_:` truthiness test in the wrapper fails and the
transport layer receives the object itself rather than the
identifier. -/
theorem c6_counterexample_zero_id :
    processIdArg .beatmapIdT (.beatmapCompact 0 (some 3)) =
        .beatmapCompact 0 (some 3) ∧
      ¬ processIdArg .beatmapIdT (.beatmapCompact 0 (some 3)) = .intv 0 :=
  ⟨rfl, by decide⟩

/-- C5: evaluating the primitive-coercion check of `_instantiate_type`.
When no attribute name is supplied (as in the top-level call from
`_request`), a type mismatch raises a `TypeError` whose message is the
empty string — carrying neither the expected nor the actual type —
because the trailing `if attr_name else ""` conditional captures the
whole concatenated f-string instead of only the attribute suffix.  With
an attribute name present the message carries all three pieces, and in
lenient mode a null value passes through unexamined. -/
theorem c5_prim_mismatch_empty_message :
    instantiate_type 1 false testEnv (.prim .pint) (.vstr "abc") none =
        .error "" ∧
    instantiate_type 1 true testEnv (.prim .pint) (.vstr "abc") none =
        .error "" ∧
    instantiate_type 1 false testEnv (.prim .pint) .null none = .ok .null ∧
    instantiate_type 1 false testEnv (.prim .pint) (.vstr "abc")
        (some "play_count") =
      .error
        "expected type int for value abc, got type str (for attribute: play_count)" := by
  refine ⟨?_, ?_, ?_, ?_⟩ <;>
    simp [instantiate_type, convert_primitive_type, isNull, primInstance,
      primMismatchMsg, primPyName, pyRepr, valueTypeName, attrRepr]

/-- C1 counterexample: for the union `[int, str]` and raw value `None`
in lenient mode, each candidate individually coerces without error
(both return `None`), yet union resolution raises the aggregated
failure instead of returning the result of the first candidate, because the
loop cannot distinguish "no candidate succeeded" from "the first
non-raising candidate produced `None`". -/
theorem c1_counterexample_none_result :
    instantiate_type 5 false testEnv (.prim .pint) .null none = .ok .null ∧
    instantiate_type 5 false testEnv (.prim .pstr) .null none = .ok .null ∧
    instantiate_type 6 false testEnv
        (.union [.prim .pint, .prim .pstr]) .null none =
      .error (unionFailMsg [.prim .pint, .prim .pstr] none []) := by
  refine ⟨?_, ?_, ?_⟩ <;>
    simp [instantiate_type, unionLoop, convert_primitive_type, isNull,
      primInstance, isNoneTy, deepCopy]

/-! ## String containment helpers -/

theorem strContains_refl (e : String) : strContains e e := List.infix_rfl

theorem strContains_append_left {e s : String} (t : String)
    (h : strContains e s) : strContains e (s ++ t) := by
  unfold strContains at h ⊢
  rw [String.data_append]
  exact h.trans (by simpa using List.infix_append [] s.data t.data)

theorem strContains_append_right (s : String) {e t : String}
    (h : strContains e t) : strContains e (s ++ t) := by
  unfold strContains at h ⊢
  rw [String.data_append]
  exact h.trans (by simpa using List.infix_append s.data t.data [])

theorem mem_reasonsItems_strContains :
    ∀ (rs : List String) (e : String), e ∈ rs →
      strContains e (reasonsItems rs)
  | [r], e, he => by
      obtain rfl : e = r := by simpa using he
      exact strContains_refl e
  | r :: r₂ :: rs, e, he => by
      rcases List.mem_cons.mp he with rfl | he₂
      · show strContains e (e ++ ", " ++ reasonsItems (r₂ :: rs))
        exact strContains_append_left _
          (strContains_append_left _ (strContains_refl e))
      · show strContains e (r ++ ", " ++ reasonsItems (r₂ :: rs))
        exact strContains_append_right _
          (mem_reasonsItems_strContains (r₂ :: rs) e he₂)

theorem mem_unionFailMsg_strContains (args : List Ty)
    (attrName : Option String) (rs : List String) (e : String)
    (he : e ∈ rs) : strContains e (unionFailMsg args attrName rs) := by
  unfold unionFailMsg reasonsRepr
  exact strContains_append_left _ (strContains_append_right _
    (strContains_append_left _ (strContains_append_right _
      (mem_reasonsItems_strContains rs e he))))

/-! ## The union loop as a pure fold over candidate attempts -/

/-- The outcome of union resolution expressed as a pure fold over the
list of per-candidate attempt results. -/
def resolveFirstAttempt (fullArgs : List Ty) (attrName : Option String) :
    List String → List (Except String Value) → Except String Value
  | acc, [] => .error (unionFailMsg fullArgs attrName acc)
  | acc, .ok v :: _ =>
      if isNull v then .error (unionFailMsg fullArgs attrName acc)
      else .ok v
  | acc, .error e :: rest =>
      resolveFirstAttempt fullArgs attrName (acc ++ [e]) rest

theorem unionLoop_eq_resolveFirstAttempt (fuel : Nat) (strict : Bool)
    (env : SchemaEnv) (fullArgs : List Ty) (value : Value)
    (attrName : Option String) :
    ∀ (remaining : List Ty) (acc : List String),
      unionLoop fuel strict env fullArgs remaining value attrName acc =
        resolveFirstAttempt fullArgs attrName acc
          (remaining.map
            (fun a => instantiate_type fuel strict env a value attrName))
  | [], acc => by simp [unionLoop, resolveFirstAttempt]
  | arg :: rest, acc => by
      rw [List.map_cons]
      rw [unionLoop, deepCopy_eq]
      cases h : instantiate_type fuel strict env arg value attrName with
      | ok v => simp [resolveFirstAttempt]
      | error e =>
          simp only [resolveFirstAttempt]
          exact unionLoop_eq_resolveFirstAttempt fuel strict env fullArgs
            value attrName rest (acc ++ [e])

/-- The per-candidate error messages recorded by the union loop. -/
def errorsOf : List (Except String Value) → List String
  | [] => []
  | .error e :: rest => e :: errorsOf rest
  | .ok _ :: rest => errorsOf rest

theorem resolveFirstAttempt_all_error (fullArgs : List Ty)
    (attrName : Option String) :
    ∀ (attempts : List (Except String Value)) (acc : List String),
      (∀ r ∈ attempts, ∃ e, r = .error e) →
      resolveFirstAttempt fullArgs attrName acc attempts =
        .error (unionFailMsg fullArgs attrName (acc ++ errorsOf attempts))
  | [], acc, _ => by simp [resolveFirstAttempt, errorsOf]
  | .ok v :: rest, acc, hall => by
      obtain ⟨e, he⟩ := hall (.ok v) (List.mem_cons_self ..)
      exact absurd he (by simp)
  | .error e :: rest, acc, hall => by
      show resolveFirstAttempt fullArgs attrName (acc ++ [e]) rest = _
      rw [resolveFirstAttempt_all_error fullArgs attrName rest (acc ++ [e])
        (fun r hr => hall r (List.mem_cons_of_mem _ hr))]
      simp [errorsOf]

theorem mem_errorsOf {e : String} :
    ∀ {l : List (Except String Value)}, Except.error e ∈ l →
      e ∈ errorsOf l
  | .ok v :: rest, h => by
      rcases List.mem_cons.mp h with h | h
      · exact absurd h (by simp)
      · simpa [errorsOf] using mem_errorsOf h
  | .error e₂ :: rest, h => by
      rcases List.mem_cons.mp h with h | h
      · obtain rfl : e = e₂ := by simpa using h
        simp [errorsOf]
      · simp only [errorsOf, List.mem_cons]
        exact Or.inr (mem_errorsOf h)

/-! ## Claim theorems for the union resolver -/

/-- C1 (amended): union resolution tries candidates in declared order
and returns the result of the first candidate that coerces without
error, provided that result is not `None`: whenever the first candidate
succeeds with a non-`None` result, the union returns exactly the
result of that candidate (so for a two-candidate union `[A, B]` the result is
of type `A`).  When the first non-raising candidate produces `None`,
the loop instead raises the union-failure error — see the
counterexample. -/
theorem c1_union_first_success (fuel : Nat) (strict : Bool)
    (env : SchemaEnv) (a : Ty) (rest : List Ty) (value : Value)
    (attrName : Option String) (v : Value)
    (hnone : (a :: rest).any isNoneTy = false)
    (hok : instantiate_type fuel strict env a value attrName = .ok v)
    (hv : isNull v = false) :
    instantiate_type (fuel + 1) strict env (.union (a :: rest)) value
      attrName = .ok v := by
  rw [instantiate_type, hnone]
  simp only [Bool.false_eq_true, if_false]
  rw [unionLoop, deepCopy_eq, hok]
  simp [hv]

theorem c1_union_first_success_witness :
    instantiate_type 6 false testEnv (.union [.prim .pint, .prim .pstr])
        (.vint 7) none = .ok (.vint 7) :=
  c1_union_first_success 5 false testEnv (.prim .pint) [.prim .pstr]
    (.vint 7) none (.vint 7) rfl
    (by simp [instantiate_type, convert_primitive_type, isNull, primInstance])
    rfl

/-- C7: union resolution is a pure function of the candidate list and
the input value (for a fixed client configuration): the deep copy taken
per attempt is semantically the identity on the embedded value domain,
every candidate attempt receives the pristine input value — so a failed
attempt leaves nothing behind that the next attempt could observe — and
the overall result is the pure fold `resolveFirstAttempt` over the
independent per-candidate attempts on that single input. -/
theorem c7_union_resolution_pure (fuel : Nat) (strict : Bool)
    (env : SchemaEnv) (args : List Ty) (value : Value)
    (attrName : Option String) (hnone : args.any isNoneTy = false) :
    deepCopy value = value ∧
    instantiate_type (fuel + 1) strict env (.union args) value attrName =
      resolveFirstAttempt args attrName []
        (args.map
          (fun a => instantiate_type fuel strict env a value attrName)) := by
  refine ⟨deepCopy_eq value, ?_⟩
  rw [instantiate_type, hnone]
  simp only [Bool.false_eq_true, if_false]
  exact unionLoop_eq_resolveFirstAttempt fuel strict env args value attrName
    args []

theorem c7_union_resolution_pure_witness :
    deepCopy (Value.vint 3) = Value.vint 3 ∧
    instantiate_type 6 false testEnv (.union [.prim .pint]) (.vint 3)
        none =
      resolveFirstAttempt [.prim .pint] none []
        ([Ty.prim .pint].map
          (fun a => instantiate_type 5 false testEnv a (.vint 3) none)) :=
  c7_union_resolution_pure 5 false testEnv [.prim .pint] (.vint 3) none rfl

/-- C3: when coercion fails for every candidate of a union, resolution
raises a single error whose message contains the recorded failure
reason of every candidate — not only the last one. -/
theorem c3_union_failure_aggregates (fuel : Nat) (strict : Bool)
    (env : SchemaEnv) (args : List Ty) (value : Value)
    (attrName : Option String)
    (hnone : args.any isNoneTy = false)
    (hfail : ∀ a ∈ args, ∃ e,
      instantiate_type fuel strict env a value attrName = .error e) :
    ∃ msg,
      instantiate_type (fuel + 1) strict env (.union args) value attrName =
        .error msg ∧
      ∀ a ∈ args, ∀ e,
        instantiate_type fuel strict env a value attrName = .error e →
        strContains e msg := by
  have hall : ∀ r ∈ args.map
      (fun a => instantiate_type fuel strict env a value attrName),
      ∃ e, r = .error e := by
    intro r hr
    obtain ⟨a, ha, rfl⟩ := List.mem_map.mp hr
    exact hfail a ha
  refine ⟨unionFailMsg args attrName
    ([] ++ errorsOf (args.map
      (fun a => instantiate_type fuel strict env a value attrName))),
    ?_, ?_⟩
  · rw [instantiate_type, hnone]
    simp only [Bool.false_eq_true, if_false]
    rw [unionLoop_eq_resolveFirstAttempt fuel strict env args value attrName
      args []]
    exact resolveFirstAttempt_all_error args attrName _ [] hall
  · intro a ha e he
    refine mem_unionFailMsg_strContains args attrName _ e ?_
    simp only [List.nil_append]
    exact mem_errorsOf (he ▸ List.mem_map_of_mem _ ha)

theorem c3_union_failure_aggregates_witness :
    ∃ msg,
      instantiate_type 6 false testEnv
          (.union [.prim .pint, .prim .pstr]) (.vlist []) (some "x") =
        .error msg ∧
      ∀ a ∈ [Ty.prim .pint, Ty.prim .pstr], ∀ e,
        instantiate_type 5 false testEnv a (.vlist []) (some "x") =
          .error e →
        strContains e msg :=
  c3_union_failure_aggregates 5 false testEnv [.prim .pint, .prim .pstr]
    (.vlist []) (some "x") rfl
    (by
      intro a ha
      rcases List.mem_cons.mp ha with rfl | ha₂
      · exact ⟨"expected type int for value <list>, got type list (for attribute: x)",
          by simp [instantiate_type, convert_primitive_type, isNull,
            primInstance, primMismatchMsg, primPyName, pyRepr,
            valueTypeName, attrRepr]⟩
      · rcases List.mem_cons.mp ha₂ with rfl | h₃
        · exact ⟨"expected type str for value <list>, got type list (for attribute: x)",
            by simp [instantiate_type, convert_primitive_type, isNull,
              primInstance, primMismatchMsg, primPyName, pyRepr,
              valueTypeName, attrRepr]⟩
        · exact absurd h₃ (by simp))

/-! ## Dict-embedding lemmas -/

theorem containsKey_of_mem {α : Type} (k : String) (v : α) :
    ∀ (m : List (String × α)), (k, v) ∈ m → containsKey k m = true
  | (k₁, v₁) :: rest, h => by
      simp only [containsKey, Bool.or_eq_true, decide_eq_true_eq]
      rcases List.mem_cons.mp h with h | h
      · exact Or.inl (congrArg Prod.fst h.symm)
      · exact Or.inr (containsKey_of_mem k v rest h)

theorem exists_mem_of_containsKey {α : Type} (k : String) :
    ∀ (m : List (String × α)), containsKey k m = true → ∃ v, (k, v) ∈ m
  | [], h => by simp [containsKey] at h
  | (k₁, v₁) :: rest, h => by
      simp only [containsKey, Bool.or_eq_true, decide_eq_true_eq] at h
      rcases h with rfl | h
      · exact ⟨v₁, List.mem_cons_self ..⟩
      · obtain ⟨v, hv⟩ := exists_mem_of_containsKey k rest h
        exact ⟨v, List.mem_cons_of_mem _ hv⟩

theorem containsKey_eq_false_of_not_mem_keysOf {α : Type} (k : String)
    (m : List (String × α)) (h : k ∉ keysOf m) :
    containsKey k m = false := by
  cases hc : containsKey k m
  · rfl
  · obtain ⟨v, hv⟩ := exists_mem_of_containsKey k m hc
    exact absurd (show k ∈ keysOf m from List.mem_map_of_mem Prod.fst hv) h

theorem containsKey_of_lookupKey {α : Type} (k : String) (v : α) :
    ∀ (m : List (String × α)), lookupKey k m = some v →
      containsKey k m = true
  | [], h => by simp [lookupKey] at h
  | (k₁, v₁) :: rest, h => by
      simp only [containsKey, Bool.or_eq_true, decide_eq_true_eq]
      by_cases hk : k₁ = k
      · exact Or.inl hk
      · simp only [lookupKey, hk, if_false] at h
        exact Or.inr (containsKey_of_lookupKey k v rest h)

theorem containsKey_append {α : Type} (k : String) :
    ∀ (l₁ l₂ : List (String × α)),
      containsKey k (l₁ ++ l₂) = (containsKey k l₁ || containsKey k l₂)
  | [], l₂ => by simp [containsKey]
  | (k₁, v) :: rest, l₂ => by
      simp [containsKey, containsKey_append k rest, Bool.or_assoc]

theorem lookupKey_append_left {α : Type} (k : String) (v : α) :
    ∀ (l₁ l₂ : List (String × α)), lookupKey k l₁ = some v →
      lookupKey k (l₁ ++ l₂) = some v
  | [], _, h => by simp [lookupKey] at h
  | (k₁, v₁) :: rest, l₂, h => by
      show lookupKey k ((k₁, v₁) :: (rest ++ l₂)) = some v
      by_cases hk : k₁ = k
      · simpa [lookupKey, hk] using (by simpa [lookupKey, hk] using h)
      · simp only [lookupKey, hk, if_false] at h ⊢
        exact lookupKey_append_left k v rest l₂ h

theorem lookupKey_append_right {α : Type} (k : String) :
    ∀ (l₁ l₂ : List (String × α)), containsKey k l₁ = false →
      lookupKey k (l₁ ++ l₂) = lookupKey k l₂
  | [], _, _ => rfl
  | (k₁, v₁) :: rest, l₂, h => by
      simp only [containsKey, Bool.or_eq_false_iff,
        decide_eq_false_iff_not] at h
      show lookupKey k ((k₁, v₁) :: (rest ++ l₂)) = lookupKey k l₂
      simp only [lookupKey, h.1, if_false]
      exact lookupKey_append_right k rest l₂ h.2

theorem lookupKey_filter {α : Type} (f : String → Bool) (k : String) :
    ∀ (l : List (String × α)),
      lookupKey k (l.filter (fun p => f p.1)) =
        if f k then lookupKey k l else none
  | [] => by simp [lookupKey]
  | (k₁, v₁) :: rest => by
      by_cases hk : k₁ = k
      · subst hk
        by_cases hf : f k₁
        · simp [List.filter_cons, hf, lookupKey]
        · simp [List.filter_cons, hf, lookupKey,
            lookupKey_filter f k₁ rest]
      · by_cases hf : f k₁
        · simp [List.filter_cons, hf, lookupKey, hk,
            lookupKey_filter f k rest]
        · simp [List.filter_cons, hf, lookupKey, hk,
            lookupKey_filter f k rest]

theorem containsKey_filter {α : Type} (f : String → Bool) (k : String) :
    ∀ (l : List (String × α)),
      containsKey k (l.filter (fun p => f p.1)) =
        (f k && containsKey k l)
  | [] => by simp [containsKey]
  | (k₁, v₁) :: rest => by
      by_cases hk : k₁ = k
      · subst hk
        by_cases hf : f k₁
        · simp [List.filter_cons, hf, containsKey]
        · simp [List.filter_cons, hf, containsKey,
            containsKey_filter f k₁ rest]
      · by_cases hf : f k₁
        · simp [List.filter_cons, hf, containsKey, hk,
            containsKey_filter f k rest]
        · simp [List.filter_cons, hf, containsKey, hk,
            containsKey_filter f k rest]

/-! ## Behaviour of the renaming pass with no overrides -/

theorem renameStep_nil_head (k : String) (v : Value)
    (m : List (String × Value)) (hk : containsKey k m = false) :
    renameStep [] ((k, v) :: m) k = m ++ [(k, v)] := by
  simp [renameStep, lookupKey, eraseKey, setKey, hk]

theorem renameFold_nil :
    ∀ (pending processed : List (String × Value)),
      (keysOf (pending ++ processed)).Nodup →
      (keysOf pending).foldl (renameStep []) (pending ++ processed) =
        processed ++ pending
  | [], processed, _ => by simp [keysOf]
  | (k, v) :: pending, processed, h => by
      have hknodup : k ∉ keysOf (pending ++ processed) := by
        have := h
        simp only [keysOf, List.cons_append, List.map_cons] at this
        exact (List.nodup_cons.mp this).1
      have hk : containsKey k (pending ++ processed) = false :=
        containsKey_eq_false_of_not_mem_keysOf k _ hknodup
      have hperm : (keysOf (pending ++ (processed ++ [(k, v)]))).Nodup := by
        have hcons : (k :: keysOf (pending ++ processed)).Nodup := by
          simpa [keysOf] using h
        have hp : List.Perm (keysOf (pending ++ processed) ++ [k])
            (k :: keysOf (pending ++ processed)) :=
          List.perm_append_singleton k _
        have : (keysOf (pending ++ processed) ++ [k]).Nodup :=
          hp.symm.nodup hcons
        simpa [keysOf, List.append_assoc] using this
      show (keysOf ((k, v) :: pending)).foldl (renameStep [])
        (((k, v) :: pending) ++ processed) = processed ++ (k, v) :: pending
      rw [show keysOf ((k, v) :: pending) = k :: keysOf pending from rfl,
        List.foldl_cons, List.cons_append, renameStep_nil_head k v _ hk,
        List.append_assoc, renameFold_nil pending (processed ++ [(k, v)])
          hperm, List.append_assoc]
      rfl

/-- With no wire-name overrides and duplicate-free keys, the
pop-and-reinsert renaming pass of `_processed_type_hints` returns the
mapping unchanged. -/
theorem renameFields_nil (m : List (String × Value))
    (h : (keysOf m).Nodup) : renameFields [] m = m := by
  have := renameFold_nil m [] (by simpa using h)
  simpa [renameFields] using this

/-! ## Behaviour of the optional-fill pass -/

theorem fillOptionals_extra :
    ∀ (th : List (String × Ty)) (m : List (String × Value)),
      ∃ extra, fillOptionals th m = m ++ extra ∧
        ∀ p ∈ extra, p.2 = Value.null ∧ containsKey p.1 th = true
  | [], m => ⟨[], by simp [fillOptionals], by simp⟩
  | (a, ty) :: rest, m => by
      have hstep : fillOptionals ((a, ty) :: rest) m =
          fillOptionals rest
            (if is_optional ty && !containsKey a m then
              m ++ [(a, Value.null)] else m) := rfl
      rw [hstep]
      by_cases hc : (is_optional ty && !containsKey a m) = true
      · rw [if_pos hc]
        obtain ⟨extra, heq, hall⟩ :=
          fillOptionals_extra rest (m ++ [(a, Value.null)])
        refine ⟨(a, Value.null) :: extra, ?_, ?_⟩
        · rw [heq, List.append_assoc]
          rfl
        · intro p hp
          rcases List.mem_cons.mp hp with rfl | hp
          · exact ⟨rfl, by simp [containsKey]⟩
          · exact ⟨(hall p hp).1, by simp [containsKey, (hall p hp).2]⟩
      · rw [if_neg hc]
        obtain ⟨extra, heq, hall⟩ := fillOptionals_extra rest m
        exact ⟨extra, heq, fun p hp =>
          ⟨(hall p hp).1, by simp [containsKey, (hall p hp).2]⟩⟩

theorem fillOptionals_lookup_some (k : String) (v : Value) :
    ∀ (th : List (String × Ty)) (m : List (String × Value)),
      lookupKey k m = some v → lookupKey k (fillOptionals th m) = some v
  | [], _, h => h
  | (a, ty) :: rest, m, h => by
      have hstep : fillOptionals ((a, ty) :: rest) m =
          fillOptionals rest
            (if is_optional ty && !containsKey a m then
              m ++ [(a, Value.null)] else m) := rfl
      rw [hstep]
      by_cases hc : (is_optional ty && !containsKey a m) = true
      · rw [if_pos hc]
        exact fillOptionals_lookup_some k v rest _
          (lookupKey_append_left k v m _ h)
      · rw [if_neg hc]
        exact fillOptionals_lookup_some k v rest m h

theorem fillOptionals_lookup_null (a : String) :
    ∀ (th : List (String × Ty)) (m : List (String × Value)),
      containsKey a m = false →
      (∃ ty, (a, ty) ∈ th ∧ is_optional ty = true) →
      lookupKey a (fillOptionals th m) = some Value.null
  | [], _, _, hex => by
      obtain ⟨ty, hmem, _⟩ := hex
      exact absurd hmem (by simp)
  | (b, tyb) :: rest, m, hm, hex => by
      have hstep : fillOptionals ((b, tyb) :: rest) m =
          fillOptionals rest
            (if is_optional tyb && !containsKey b m then
              m ++ [(b, Value.null)] else m) := rfl
      rw [hstep]
      by_cases hb : b = a
      · subst hb
        by_cases hopt : is_optional tyb = true
        · have hc : (is_optional tyb && !containsKey b m) = true := by
            simp [hopt, hm]
          rw [if_pos hc]
          refine fillOptionals_lookup_some b Value.null rest _ ?_
          rw [lookupKey_append_right b m _ hm]
          simp [lookupKey]
        · have hc : (is_optional tyb && !containsKey b m) = false := by
            simp [Bool.eq_false_iff.mpr hopt]
          rw [if_neg (by simp [hc])]
          obtain ⟨ty, hmem, hty⟩ := hex
          rcases List.mem_cons.mp hmem with heq | hmem₂
          · cases heq
            exact absurd hty hopt
          · exact fillOptionals_lookup_null b rest m hm ⟨ty, hmem₂, hty⟩
      · obtain ⟨ty, hmem, hty⟩ := hex
        have hmem₂ : (a, ty) ∈ rest := by
          rcases List.mem_cons.mp hmem with heq | hmem₂
          · exact absurd (congrArg Prod.fst heq) (fun hh => hb hh.symm)
          · exact hmem₂
        by_cases hc : (is_optional tyb && !containsKey b m) = true
        · rw [if_pos hc]
          have hm₂ : containsKey a (m ++ [(b, Value.null)]) = false := by
            rw [containsKey_append, hm]
            simp [containsKey, hb]
          exact fillOptionals_lookup_null a rest _ hm₂ ⟨ty, hmem₂, hty⟩
        · rw [if_neg hc]
          exact fillOptionals_lookup_null a rest m hm ⟨ty, hmem₂, hty⟩

theorem fillOptionals_containsKey (a : String)
    (th : List (String × Ty)) (m : List (String × Value)) (ty : Ty)
    (hmem : (a, ty) ∈ th) (hopt : is_optional ty = true) :
    containsKey a (fillOptionals th m) = true := by
  cases hc : containsKey a m
  · exact containsKey_of_lookupKey a Value.null _
      (fillOptionals_lookup_null a th m hc ⟨ty, hmem, hopt⟩)
  · obtain ⟨extra, heq, _⟩ := fillOptionals_extra th m
    rw [heq, containsKey_append, hc]
    rfl

/-! ## Behaviour of the unknown-key partition -/

theorem filterKnown_ok_of_known (strict : Bool)
    (th : List (String × Ty)) (n : String) :
    ∀ (l : List (String × Value)),
      (∀ p ∈ l, containsKey p.1 th = true) →
      filterKnown strict th n l = .ok l
  | [], _ => rfl
  | (k, v) :: rest, hall => by
      have hk : containsKey k th = true := hall (k, v) (List.mem_cons_self ..)
      simp only [filterKnown, hk, if_true]
      rw [filterKnown_ok_of_known strict th n rest
        (fun p hp => hall p (List.mem_cons_of_mem _ hp))]

theorem filterKnown_false_eq_filter (th : List (String × Ty)) (n : String) :
    ∀ (l : List (String × Value)),
      filterKnown false th n l =
        .ok (l.filter (fun p => containsKey p.1 th))
  | [] => rfl
  | (k, v) :: rest => by
      cases hk : containsKey k th with
      | false =>
          simp only [filterKnown, hk, Bool.false_eq_true, if_false]
          rw [filterKnown_false_eq_filter th n rest]
          simp [List.filter_cons, hk]
      | true =>
          simp only [filterKnown, hk, if_true]
          rw [filterKnown_false_eq_filter th n rest]
          simp [List.filter_cons, hk]

theorem filterKnown_error_first (th : List (String × Ty)) (n : String)
    (k : String) (v : Value) (hk : containsKey k th = false) :
    ∀ (l₁ l₂ : List (String × Value)),
      (∀ p ∈ l₁, containsKey p.1 th = true) →
      filterKnown true th n (l₁ ++ (k, v) :: l₂) =
        .error (unexpectedParamMsg k v n)
  | [], l₂, _ => by
      show filterKnown true th n ((k, v) :: l₂) = _
      simp only [filterKnown, hk, Bool.false_eq_true, if_false, if_true]
  | (k₁, v₁) :: rest, l₂, hall => by
      have hk₁ := hall (k₁, v₁) (List.mem_cons_self ..)
      show filterKnown true th n ((k₁, v₁) :: (rest ++ (k, v) :: l₂)) = _
      simp only [filterKnown, hk₁, if_true]
      rw [filterKnown_error_first th n k v hk rest l₂
        (fun p hp => hall p (List.mem_cons_of_mem _ hp))]

theorem constructModel_ok (n : String) (th : List (String × Ty))
    (kw : List (String × Value))
    (hall : ∀ p ∈ th, containsKey p.1 kw = true) :
    constructModel n th kw = .ok (.vmodel n kw) := by
  have hnone : th.find? (fun p => !containsKey p.1 kw) = none :=
    List.find?_eq_none.mpr (fun p hp => by simp [hall p hp])
  unfold constructModel
  rw [hnone]

/-! ## Claim theorems for the record instantiator -/

/-- C2: instantiating a record type from a raw mapping carrying one
key not declared by the type: in strict mode the instantiation raises a
TypeError whose message names that key, its value, and the record type;
in lenient mode it succeeds and the constructed instance retains no
entry under that key.  The mapping is otherwise well-formed: keys are
duplicate-free, every other key is declared, every required attribute
is supplied, and the record type uses no wire-name overrides. -/
theorem c2_unknown_key_strict_and_lenient (schema : ModelSchema)
    (kwargs : List (String × Value)) (k : String) (v : Value)
    (hren : schema.renames = [])
    (hnodup : (keysOf kwargs).Nodup)
    (hmem : (k, v) ∈ kwargs)
    (hunk : containsKey k schema.fields = false)
    (hothers : ∀ p ∈ kwargs, p.1 ≠ k → containsKey p.1 schema.fields = true)
    (hreq : ∀ p ∈ schema.fields, is_optional p.2 = false →
      containsKey p.1 kwargs = true)
    (hapi : k ≠ "_api") :
    (instantiate true schema (.vmap kwargs) =
        .error (unexpectedParamMsg k v schema.name) ∧
      strContains k (unexpectedParamMsg k v schema.name) ∧
      strContains (pyRepr v) (unexpectedParamMsg k v schema.name) ∧
      strContains schema.name (unexpectedParamMsg k v schema.name)) ∧
    (∃ data, instantiate false schema (.vmap kwargs) =
        .ok (.vmodel schema.name data) ∧ containsKey k data = false) := by
  obtain ⟨l₁, l₂, hsplit⟩ := List.append_of_mem hmem
  subst hsplit
  have hknotin : k ∉ keysOf l₁ := by
    have h := hnodup
    simp only [keysOf, List.map_append, List.map_cons] at h
    have hdisj := (List.nodup_append.mp h).2.2
    intro hmem₁
    exact hdisj hmem₁ (List.mem_cons_self ..)
  have hl₁ : ∀ p ∈ l₁, containsKey p.1 schema.fields = true := by
    intro p hp
    refine hothers p (List.mem_append_left _ hp) ?_
    intro hpk
    exact hknotin (hpk ▸ List.mem_map_of_mem Prod.fst hp)
  obtain ⟨extra, heqfill, hextra⟩ :=
    fillOptionals_extra schema.fields (l₁ ++ (k, v) :: l₂)
  have hrename : renameFields schema.renames (l₁ ++ (k, v) :: l₂) =
      l₁ ++ (k, v) :: l₂ := by
    rw [hren]
    exact renameFields_nil _ hnodup
  constructor
  · refine ⟨?_, ?_, ?_, ?_⟩
    · simp only [instantiate]
      rw [hrename, heqfill,
        show (l₁ ++ (k, v) :: l₂) ++ extra = l₁ ++ (k, v) :: (l₂ ++ extra)
          by simp,
        filterKnown_error_first schema.fields schema.name k v hunk l₁
          (l₂ ++ extra) hl₁]
    · unfold unexpectedParamMsg
      exact strContains_append_left _ (strContains_append_left _
        (strContains_append_left _ (strContains_append_left _
          (strContains_append_right _ (strContains_refl k)))))
    · unfold unexpectedParamMsg
      exact strContains_append_right _ (strContains_refl (pyRepr v))
    · unfold unexpectedParamMsg
      exact strContains_append_left _ (strContains_append_left _
        (strContains_append_right _ (strContains_refl schema.name)))
  · refine ⟨((l₁ ++ (k, v) :: l₂) ++ extra).filter
      (fun p => containsKey p.1 schema.fields) ++ [("_api", Value.apiRef)],
      ?_, ?_⟩
    · simp only [instantiate]
      rw [hrename, heqfill,
        filterKnown_false_eq_filter schema.fields schema.name _]
      apply constructModel_ok
      intro p hp
      rw [containsKey_append]
      have hknownp : containsKey p.1 schema.fields = true :=
        containsKey_of_mem p.1 p.2 _ (by rw [Prod.mk.eta]; exact hp)
      have hcont : containsKey p.1 ((l₁ ++ (k, v) :: l₂) ++ extra) = true := by
        by_cases hpopt : is_optional p.2 = true
        · rw [← heqfill]
          exact fillOptionals_containsKey p.1 schema.fields _ p.2
            (by rw [Prod.mk.eta]; exact hp) hpopt
        · rw [containsKey_append,
            hreq p hp (by simpa using hpopt)]
          rfl
      rw [containsKey_filter (fun x => containsKey x schema.fields),
        hknownp, hcont]
      rfl
    · rw [containsKey_append,
        containsKey_filter (fun x => containsKey x schema.fields), hunk]
      simp only [containsKey, Bool.false_and, Bool.false_or,
        Bool.or_false, decide_eq_false_iff_not]
      exact fun h => hapi h.symm

theorem c2_unknown_key_witness :
    instantiate true recordSchema
        (.vmap [("id", .vint 5), ("name", .vstr "foo"), ("weird", .vint 1)]) =
      .error (unexpectedParamMsg "weird" (.vint 1) "RecordType") ∧
    ∃ data, instantiate false recordSchema
        (.vmap [("id", .vint 5), ("name", .vstr "foo"), ("weird", .vint 1)]) =
      .ok (.vmodel "RecordType" data) ∧ containsKey "weird" data = false := by
  have h := c2_unknown_key_strict_and_lenient recordSchema
    [("id", .vint 5), ("name", .vstr "foo"), ("weird", .vint 1)]
    "weird" (.vint 1) rfl (by decide)
    (by simp)
    rfl
    (by intro p hp h
        fin_cases hp
        · rfl
        · rfl
        · exact absurd rfl h)
    (by intro p hp h
        fin_cases hp
        · rfl
        · rfl
        · exact absurd h (by simp [is_optional, isNoneTy]))
    (by decide)
  exact ⟨h.1.1, h.2⟩

/-- C4: for a record type with an attribute declared optional, coercing
a raw mapping that omits that attribute does not raise and yields a
record instance whose attribute is bound explicitly to `None` — the
attribute is present in the instance data, not an omitted key.  Holds
in both strict and lenient mode for an otherwise well-formed mapping
(all keys declared, all required attributes supplied, no wire-name
overrides). -/
theorem c4_optional_absent_attr (schema : ModelSchema)
    (kwargs : List (String × Value)) (a : String) (ty : Ty) (strict : Bool)
    (hren : schema.renames = [])
    (hnodup : (keysOf kwargs).Nodup)
    (hfield : (a, ty) ∈ schema.fields)
    (hopt : is_optional ty = true)
    (habsent : containsKey a kwargs = false)
    (hknown : ∀ p ∈ kwargs, containsKey p.1 schema.fields = true)
    (hreq : ∀ p ∈ schema.fields, is_optional p.2 = false →
      containsKey p.1 kwargs = true) :
    ∃ data, instantiate strict schema (.vmap kwargs) =
        .ok (.vmodel schema.name data) ∧
      lookupKey a data = some Value.null := by
  obtain ⟨extra, heqfill, hextra⟩ := fillOptionals_extra schema.fields kwargs
  have hrename : renameFields schema.renames kwargs = kwargs := by
    rw [hren]
    exact renameFields_nil _ hnodup
  have hallknown : ∀ p ∈ kwargs ++ extra,
      containsKey p.1 schema.fields = true := by
    intro p hp
    rcases List.mem_append.mp hp with hp | hp
    · exact hknown p hp
    · exact (hextra p hp).2
  refine ⟨(kwargs ++ extra) ++ [("_api", Value.apiRef)], ?_, ?_⟩
  · simp only [instantiate]
    rw [hrename, heqfill,
      filterKnown_ok_of_known strict schema.fields schema.name _ hallknown]
    apply constructModel_ok
    intro p hp
    rw [containsKey_append]
    have hcont : containsKey p.1 (kwargs ++ extra) = true := by
      by_cases hpopt : is_optional p.2 = true
      · rw [← heqfill]
        exact fillOptionals_containsKey p.1 schema.fields kwargs p.2
          (by rw [Prod.mk.eta]; exact hp) hpopt
      · rw [containsKey_append, hreq p hp (by simpa using hpopt)]
        rfl
    rw [hcont]
    rfl
  · refine lookupKey_append_left a Value.null _ _ ?_
    rw [← heqfill]
    exact fillOptionals_lookup_null a schema.fields kwargs habsent
      ⟨ty, hfield, hopt⟩

theorem c4_optional_absent_attr_witness :
    ∃ data, instantiate false recordSchema
        (.vmap [("id", .vint 5), ("name", .vstr "foo")]) =
      .ok (.vmodel "RecordType" data) ∧
      lookupKey "nested" data = some Value.null :=
  c4_optional_absent_attr recordSchema [("id", .vint 5), ("name", .vstr "foo")]
    "nested" (.union [.model "NestedType", .noneT]) false rfl (by decide)
    (by simp [recordSchema]) rfl rfl
    (by intro p hp
        fin_cases hp
        · rfl
        · rfl)
    (by intro p hp h
        fin_cases hp
        · rfl
        · rfl
        · exact absurd h (by simp [is_optional, isNoneTy]))

end OssapiModel
